import Mathlib

/-!
Shallow embedding of `src/aligner.py` (pairwise sequence alignment:
Needleman-Wunsch, Smith-Waterman and Gotoh variants).

Sequences are lists of characters.  The numpy score matrix
`score[r, c, 0..3]` is split into a score function (channel 0) and a flag
function (channels 1..3: left / diagonal / top arrows).  The fill loops are
rendered as structurally recursive functions over the row index (outer loop)
and the column index (inner loop); cell `(r, c)` only reads cells filled
before it, so the recursive rendering computes exactly the values the
imperative fill stores.  Python exceptions become an error type, and the
`while True` traceback loop gets an explicit fuel argument that is large
enough that the fuel can never run out before the loop stops or raises.
-/

/-- Errors the Python code can raise (`ParameterError`,
`UnknownAlgorithmError`, `NotImplementedError`, plus the `IndexError` of an
out-of-range numpy/string access and the `TypeError` of unpacking the `None`
that `_trace_cell` returns when no arrow flag is set).  `outOfFuel` is an
artifact of the fuelled loop; the fuel passed by `alignCore` is large enough
that it is never returned. -/
inductive AlignErr where
  | parameterError
  | unknownAlgorithmError
  | notImplementedError
  | indexError
  | typeError
  | outOfFuel
  deriving Repr, DecidableEq

/-- The normalized penalty model: the four values the core algorithms read
from the penalty dictionary (`match`, `mismatch`, `indel`, `gap_opening`).
`match` is a Lean keyword, so the field is called `matchS`. -/
structure Penalties where
  matchS : Int
  mismatch : Int
  indel : Int
  gap_opening : Int
  deriving Repr, DecidableEq

/-- The caller-supplied penalty dictionary of `align`: each of the four keys
may be absent. -/
structure PDict where
  matchS : Option Int
  mismatch : Option Int
  indel : Option Int
  gap_opening : Option Int
  deriving Repr, DecidableEq

/-- Arrow flags of one cell: channels 1..3 of the numpy score matrix
(`left`, `diag`, `top` arrows; the code stores 1.0 / 0.0). -/
structure Flags where
  left : Bool
  diag : Bool
  top : Bool
  deriving Repr, DecidableEq

/-- One cell of the Gotoh fill: the cell score (channel 0 of `score`)
together with the auxiliary `I` and `D` values of `align_g`. -/
structure GCell where
  S : Int
  I : Int
  D : Int
  deriving Repr, DecidableEq

/-- `score[0, c, 0]` after initialization: `range(0, -len(col_idx), -1)`
stores `-c` in global mode; in local mode the matrix stays zero. -/
def bRow (gl : Bool) (c : Nat) : Int :=
  if gl then -(c : Int) else 0

/-- `score[r, 0, 0]` after initialization: `-r` in global mode, else 0. -/
def bCol (gl : Bool) (r : Nat) : Int :=
  if gl then -(r : Int) else 0

/-- `alignment_penalty` of `fill_cell` at cell `(r, c)` (`r, c ≥ 1`):
`match` when `col_idx[c] == row_idx[r]`, i.e. `A[c-1] == B[r-1]`,
else `mismatch`. -/
def lscore (p : Penalties) (A B : List Char) (r c : Nat) : Int :=
  if A.getD (c - 1) ' ' = B.getD (r - 1) ' ' then p.matchS else p.mismatch

/-- One row (`r ≥ 1`) of the simple fill of `_align.fill_cell`, given the
previous row as a function.  The inner loop over columns becomes structural
recursion on the column index. -/
def simpleRow (gl : Bool) (p : Penalties) (A B : List Char)
    (prev : Nat → Int) (r : Nat) : Nat → Int
  | 0 => bCol gl r
  | c + 1 =>
    let diag := prev c + lscore p A B r (c + 1)
    let left := simpleRow gl p A B prev r c + p.indel
    let top := prev (c + 1) + p.indel
    if gl then max diag (max left top) else max (max diag (max left top)) 0

/-- Channel 0 of the score matrix filled by `_align` (mode `global` when
`gl = true`): row 0 and column 0 are the initialized boundary, interior
cells follow `fill_cell`. -/
def scoreS (gl : Bool) (p : Penalties) (A B : List Char) : Nat → Nat → Int
  | 0, c => bRow gl c
  | r + 1, c => simpleRow gl p A B (scoreS gl p A B r) (r + 1) c

/-- Channels 1..3 of the matrix filled by `_align`: the boundary flags set by
the initialization slices (`score[0, :, 1] = 1` and `score[:, 0, 3] = 1`,
both of which include the corner `(0,0)`), and the comparisons of
`fill_cell` for interior cells. -/
def flagsS (gl : Bool) (p : Penalties) (A B : List Char) : Nat → Nat → Flags
  | 0, 0 => if gl then ⟨true, false, true⟩ else ⟨false, false, false⟩
  | 0, _ + 1 => if gl then ⟨true, false, false⟩ else ⟨false, false, false⟩
  | _ + 1, 0 => if gl then ⟨false, false, true⟩ else ⟨false, false, false⟩
  | r + 1, c + 1 =>
    let s := scoreS gl p A B (r + 1) (c + 1)
    ⟨decide (scoreS gl p A B (r + 1) c + p.indel = s),
     decide (scoreS gl p A B r c + lscore p A B (r + 1) (c + 1) = s),
     decide (scoreS gl p A B r (c + 1) + p.indel = s)⟩

/-- One row (`r ≥ 1`) of the Gotoh fill of `align_g.fill_cell`, given the
previous row.  Note the guards are exactly the source's: `I` uses only the
opening term when `r == 1`, `D` when `c == 1`. -/
def gotohRow (gl : Bool) (p : Penalties) (A B : List Char)
    (prev : Nat → GCell) (r : Nat) : Nat → GCell
  | 0 => ⟨bCol gl r, bCol gl r, bCol gl r⟩
  | c + 1 =>
    let cl := gotohRow gl p A B prev r c
    let cu := prev (c + 1)
    let iv := if r = 1 then cl.S + p.gap_opening
              else max (cl.S + p.gap_opening) (cl.I + p.indel)
    let dv := if c + 1 = 1 then cu.S + p.gap_opening
              else max (cu.S + p.gap_opening) (cu.D + p.indel)
    let diag := (prev c).S + lscore p A B r (c + 1)
    let ms := if gl then max diag (max iv dv) else max (max diag (max iv dv)) 0
    ⟨ms, iv, dv⟩

/-- The matrix filled by `align_g`: score channel plus the `I`/`D` arrays.
`I = np.copy(score[:, :, 0])` and `D = np.copy(...)` are taken after the
boundary initialization, so on row 0 and column 0 all three components hold
the boundary score. -/
def gotohMat (gl : Bool) (p : Penalties) (A B : List Char) : Nat → Nat → GCell
  | 0, c => ⟨bRow gl c, bRow gl c, bRow gl c⟩
  | r + 1, c => gotohRow gl p A B (gotohMat gl p A B r) (r + 1) c

/-- Channel 0 of the matrix filled by `align_g`. -/
def scoreG (gl : Bool) (p : Penalties) (A B : List Char) (r c : Nat) : Int :=
  (gotohMat gl p A B r c).S

/-- Channels 1..3 of the matrix filled by `align_g`: same boundary flags as
`_align`, and the comparisons of `align_g.fill_cell` (`left = I[r,c]`,
`top = D[r,c]`). -/
def flagsG (gl : Bool) (p : Penalties) (A B : List Char) : Nat → Nat → Flags
  | 0, 0 => if gl then ⟨true, false, true⟩ else ⟨false, false, false⟩
  | 0, _ + 1 => if gl then ⟨true, false, false⟩ else ⟨false, false, false⟩
  | _ + 1, 0 => if gl then ⟨false, false, true⟩ else ⟨false, false, false⟩
  | r + 1, c + 1 =>
    let cell := gotohMat gl p A B (r + 1) (c + 1)
    ⟨decide (cell.I = cell.S),
     decide ((gotohMat gl p A B r c).S + lscore p A B (r + 1) (c + 1) = cell.S),
     decide (cell.D = cell.S)⟩

/-- Python indexing into a dimension of size `size`: `0 ≤ i < size` reads
directly, `-size ≤ i < 0` wraps to `i + size`, anything else raises
`IndexError`. -/
def pyIdx (size : Nat) (i : Int) : Except AlignErr Nat :=
  if 0 ≤ i ∧ i < (size : Int) then .ok i.toNat
  else if -(size : Int) ≤ i ∧ i < 0 then .ok (i + (size : Int)).toNat
  else .error .indexError

/-- Python string indexing (`col_idx[c]` / `row_idx[r]` in `_trace_cell`). -/
def pyGetChar (s : List Char) (i : Int) : Except AlignErr Char :=
  match pyIdx s.length i with
  | .error e => .error e
  | .ok j => .ok (s.getD j ' ')

/-- Reading the flag channels `score[r, c, 1..3]` with Python index
semantics on the row / column axes. -/
def readFlags (flagF : Nat → Nat → Flags) (rows cols : Nat) (r c : Int) :
    Except AlignErr Flags :=
  match pyIdx rows r with
  | .error e => .error e
  | .ok rr =>
    match pyIdx cols c with
    | .error e => .error e
    | .ok cc => .ok (flagF rr cc)

/-- Reading `score[r, c, 0]` with Python index semantics. -/
def readScore (scoreF : Nat → Nat → Int) (rows cols : Nat) (r c : Int) :
    Except AlignErr Int :=
  match pyIdx rows r with
  | .error e => .error e
  | .ok rr =>
    match pyIdx cols c with
    | .error e => .error e
    | .ok cc => .ok (scoreF rr cc)

/-- `_trace_cell`: reads the two header letters, then consults the arrow
flags in the order left, diagonal, top; prepends the implied symbols to the
result lists and returns the predecessor cell.  When no flag is set the
Python function returns `None` and the caller's tuple unpacking raises
`TypeError`. -/
def traceCell (flagF : Nat → Nat → Flags) (colIdx rowIdx : List Char)
    (rows cols : Nat) (r c : Int) (resA resB : List Char) :
    Except AlignErr (Int × Int × List Char × List Char) :=
  match pyGetChar colIdx c with
  | .error e => .error e
  | .ok aL =>
    match pyGetChar rowIdx r with
    | .error e => .error e
    | .ok bL =>
      match readFlags flagF rows cols r c with
      | .error e => .error e
      | .ok fl =>
        if fl.left then .ok (r, c - 1, aL :: resA, '-' :: resB)
        else if fl.diag then .ok (r - 1, c - 1, aL :: resA, bL :: resB)
        else if fl.top then .ok (r - 1, c, '-' :: resA, bL :: resB)
        else .error .typeError

/-- The `while True` traceback loop shared by `_align` and `align_g`: step
first, then test the stop condition (`row == 0 and col == 0` in global mode,
`score[row, col, 0] == 0` in local mode).  Returns the final position
together with the accumulated result lists. -/
def traceLoop (scoreF : Nat → Nat → Int) (flagF : Nat → Nat → Flags)
    (gl : Bool) (colIdx rowIdx : List Char) (rows cols : Nat) :
    Nat → Int → Int → List Char → List Char →
    Except AlignErr ((Int × Int) × List Char × List Char)
  | 0, _, _, _, _ => .error .outOfFuel
  | fuel + 1, r, c, a, b =>
    match traceCell flagF colIdx rowIdx rows cols r c a b with
    | .error e => .error e
    | .ok (r2, c2, a2, b2) =>
      match (if gl then Except.ok (decide (r2 = 0 ∧ c2 = 0))
             else Except.map (fun v => decide (v = 0))
                    (readScore scoreF rows cols r2 c2)) with
      | .error e => .error e
      | .ok stop =>
        if stop then .ok ((r2, c2), a2, b2)
        else traceLoop scoreF flagF gl colIdx rowIdx rows cols fuel r2 c2 a2 b2

/-- `np.argmax` over the suffix of indices `0..j` of a flattened array,
scanning in order and keeping the first index attaining the maximum. -/
def argmaxAux (g : Nat → Int) : Nat → Nat
  | 0 => 0
  | j + 1 => let b := argmaxAux g j; if g (j + 1) > g b then j + 1 else b

/-- The traceback start cell: the bottom-right corner in global mode, and
`np.unravel_index(score[:, :, 0].argmax(), shape)` in local mode (the first
cell in row-major order holding the matrix-wide maximum). -/
def startCell (gl : Bool) (scoreF : Nat → Nat → Int) (m n : Nat) : Nat × Nat :=
  if gl then (m, n)
  else
    let cols := n + 1
    let idx := argmaxAux (fun i => scoreF (i / cols) (i % cols))
      ((m + 1) * cols - 1)
    (idx / cols, idx % cols)

/-- Fuel for the traceback loop.  Every step strictly decreases `row + col`,
and the loop stops or raises before `row + col` can drop below
`-(rows + cols)`, so `2 * (m + n) + 10` steps are never exhausted. -/
def traceFuel (m n : Nat) : Nat := 2 * (m + n) + 10

/-- The shared trailer of `_align` and `align_g`: pick the start cell,
record `final_score = score[row, col, 0]`, run the traceback, and return
`(final_score, result_A, result_B)`. -/
def alignCore (scoreF : Nat → Nat → Int) (flagF : Nat → Nat → Flags)
    (gl : Bool) (A B : List Char) :
    Except AlignErr (Int × List Char × List Char) :=
  let colIdx := ' ' :: A
  let rowIdx := ' ' :: B
  let m := B.length
  let n := A.length
  let s := startCell gl scoreF m n
  let fs := scoreF s.1 s.2
  match traceLoop scoreF flagF gl colIdx rowIdx (m + 1) (n + 1)
      (traceFuel m n) (s.1 : Int) (s.2 : Int) [] [] with
  | .error e => .error e
  | .ok (_, a, b) => .ok (fs, a, b)

/-- `_align`: simple-gap fill plus the shared trailer. -/
def alignSimple (A B : List Char) (p : Penalties) (gl : Bool) :
    Except AlignErr (Int × List Char × List Char) :=
  alignCore (scoreS gl p A B) (flagsS gl p A B) gl A B

/-- `align_g`: Gotoh fill plus the shared trailer. -/
def alignGotoh (A B : List Char) (p : Penalties) (gl : Bool) :
    Except AlignErr (Int × List Char × List Char) :=
  alignCore (scoreG gl p A B) (flagsG gl p A B) gl A B

/-- `align_nw`. -/
def align_nw (A B : List Char) (p : Penalties) := alignSimple A B p true

/-- `align_sw`. -/
def align_sw (A B : List Char) (p : Penalties) := alignSimple A B p false

/-- `align_ae`: unconditionally raises `NotImplementedError`. -/
def align_ae (_A _B : List Char) (_p : Penalties) :
    Except AlignErr (Int × List Char × List Char) :=
  .error .notImplementedError

/-- The default scoring dictionary `{'match': 1, 'mismatch': -1,
'indel': -1}` that `align` substitutes when `penalties is None`. -/
def defaultPDict : PDict := ⟨some 1, some (-1), some (-1), none⟩

/-- The penalty-dictionary checks of `align`: reading the keys `match`,
`mismatch`, `indel` (a missing one raises `ParameterError`), then filling in
`gap_opening` from `indel` when that key is absent.  Returns the dictionary
as it is left after these statements. -/
def normalizePenalties (pd : PDict) : Except AlignErr PDict :=
  match pd.matchS, pd.mismatch, pd.indel with
  | some _, some _, some _ =>
    .ok (match pd.gap_opening with
         | some _ => pd
         | none => { pd with gap_opening := pd.indel })
  | _, _, _ => .error .parameterError

/-- The complete model the core algorithms read from a normalized
dictionary (all four keys present after `normalizePenalties`; the `getD`
defaults are never used then). -/
def toModel (pd : PDict) : Penalties :=
  ⟨pd.matchS.getD 0, pd.mismatch.getD 0, pd.indel.getD 0, pd.gap_opening.getD 0⟩

/-- `align`: normalizes the penalties (mutating the caller's dictionary in
place — the first component of the result is the caller's dictionary as the
call leaves it, `none` when the caller passed no dictionary), validates the
method selector, and dispatches.  The final arm is unreachable: inside the
membership test a selector other than the four implemented ones can only be
`AE`. -/
def align (A B : List Char) (method : Option String) (pd? : Option PDict) :
    Option PDict × Except AlignErr (Int × List Char × List Char) :=
  let pd := pd?.getD defaultPDict
  match normalizePenalties pd with
  | .error e => (pd?, .error e)
  | .ok pd1 =>
    let out := pd?.map (fun _ => pd1)
    let p := toModel pd1
    if method ∈ ([some "NW", some "SW", some "GG", some "GL", some "AE",
        none] : List (Option String)) then
      let ms := method.getD "NW"
      if ms = "NW" then (out, align_nw A B p)
      else if ms = "SW" then (out, align_sw A B p)
      else if ms = "GG" then (out, alignGotoh A B p true)
      else if ms = "GL" then (out, alignGotoh A B p false)
      else if ms = "AE" then (out, align_ae A B p)
      else (out, .error .unknownAlgorithmError)
    else (out, .error .unknownAlgorithmError)

/-- The score component of an alignment outcome, when one was returned. -/
def scoreOf (res : Except AlignErr (Int × List Char × List Char)) :
    Option Int :=
  match res with
  | .ok (s, _, _) => some s
  | .error _ => none

/-- The value the `I` array of `align_g` holds at a cell when
`gap_opening = indel`: on the boundary the copied boundary score, at an
interior cell the simple `left` candidate of `_align`. -/
def simpleLeftV (gl : Bool) (p : Penalties) (A B : List Char) :
    Nat → Nat → Int
  | r + 1, c + 1 => scoreS gl p A B (r + 1) c + p.indel
  | 0, c => scoreS gl p A B 0 c
  | r + 1, 0 => scoreS gl p A B (r + 1) 0

/-- The value the `D` array of `align_g` holds at a cell when
`gap_opening = indel`: the copied boundary score, or the simple `top`
candidate. -/
def simpleTopV (gl : Bool) (p : Penalties) (A B : List Char) :
    Nat → Nat → Int
  | r + 1, c + 1 => scoreS gl p A B r (c + 1) + p.indel
  | 0, c => scoreS gl p A B 0 c
  | r + 1, 0 => scoreS gl p A B (r + 1) 0

/-- The penalty model produced by normalizing the default dictionary:
`{match: 1, mismatch: -1, indel: -1, gap_opening: -1}`. -/
def defaultModel : Penalties := ⟨1, -1, -1, -1⟩

/-! ### Equations of the fill phase -/

/-- Row 0 of the `_align` matrix holds the initialized boundary. -/
theorem scoreS_zero (gl : Bool) (p : Penalties) (A B : List Char) (c : Nat) :
    scoreS gl p A B 0 c = bRow gl c := rfl

/-- Column 0 of the `_align` matrix holds the initialized boundary. -/
theorem scoreS_col0 (gl : Bool) (p : Penalties) (A B : List Char) (r : Nat) :
    scoreS gl p A B (r + 1) 0 = bCol gl (r + 1) := rfl

/-- Interior recurrence of `_align.fill_cell`, global mode. -/
theorem scoreS_interior_g (p : Penalties) (A B : List Char) (r c : Nat) :
    scoreS true p A B (r + 1) (c + 1) =
      max (scoreS true p A B r c + lscore p A B (r + 1) (c + 1))
        (max (scoreS true p A B (r + 1) c + p.indel)
          (scoreS true p A B r (c + 1) + p.indel)) := rfl

/-- Interior recurrence of `_align.fill_cell`, local mode (extra 0 floor). -/
theorem scoreS_interior_l (p : Penalties) (A B : List Char) (r c : Nat) :
    scoreS false p A B (r + 1) (c + 1) =
      max (max (scoreS false p A B r c + lscore p A B (r + 1) (c + 1))
        (max (scoreS false p A B (r + 1) c + p.indel)
          (scoreS false p A B r (c + 1) + p.indel))) 0 := rfl

/-- Interior flags of `_align.fill_cell`. -/
theorem flagsS_interior (gl : Bool) (p : Penalties) (A B : List Char)
    (r c : Nat) :
    flagsS gl p A B (r + 1) (c + 1) =
      ⟨decide (scoreS gl p A B (r + 1) c + p.indel =
          scoreS gl p A B (r + 1) (c + 1)),
       decide (scoreS gl p A B r c + lscore p A B (r + 1) (c + 1) =
          scoreS gl p A B (r + 1) (c + 1)),
       decide (scoreS gl p A B r (c + 1) + p.indel =
          scoreS gl p A B (r + 1) (c + 1))⟩ := rfl

/-- Interior recurrence of `align_g.fill_cell` (source guards:
`r == 1` for `I`, `c == 1` for `D`). -/
theorem gotohMat_interior (gl : Bool) (p : Penalties) (A B : List Char)
    (r c : Nat) :
    gotohMat gl p A B (r + 1) (c + 1) =
      (let cl := gotohMat gl p A B (r + 1) c
       let cu := gotohMat gl p A B r (c + 1)
       let iv := if r + 1 = 1 then cl.S + p.gap_opening
                 else max (cl.S + p.gap_opening) (cl.I + p.indel)
       let dv := if c + 1 = 1 then cu.S + p.gap_opening
                 else max (cu.S + p.gap_opening) (cu.D + p.indel)
       let diag := (gotohMat gl p A B r c).S + lscore p A B (r + 1) (c + 1)
       let ms := if gl then max diag (max iv dv)
                 else max (max diag (max iv dv)) 0
       ⟨ms, iv, dv⟩) := rfl

/-- A cell dominates its `left` candidate. -/
theorem left_le_cell (gl : Bool) (p : Penalties) (A B : List Char)
    (r c : Nat) :
    scoreS gl p A B (r + 1) c + p.indel ≤ scoreS gl p A B (r + 1) (c + 1) := by
  cases gl
  · rw [scoreS_interior_l]; omega
  · rw [scoreS_interior_g]; omega

/-- A cell dominates its `top` candidate. -/
theorem top_le_cell (gl : Bool) (p : Penalties) (A B : List Char)
    (r c : Nat) :
    scoreS gl p A B r (c + 1) + p.indel ≤ scoreS gl p A B (r + 1) (c + 1) := by
  cases gl
  · rw [scoreS_interior_l]; omega
  · rw [scoreS_interior_g]; omega

/-- In local mode every cell of the `_align` matrix is nonnegative. -/
theorem scoreS_local_nonneg (p : Penalties) (A B : List Char) :
    ∀ r c, 0 ≤ scoreS false p A B r c := by
  intro r c
  match r, c with
  | 0, c => simp [scoreS_zero, bRow]
  | r + 1, 0 => simp [scoreS_col0, bCol]
  | r + 1, c + 1 => rw [scoreS_interior_l]; omega

/-- In global mode every interior cell of the `_align` matrix carries at
least one arrow flag. -/
theorem flags_exist_global (p : Penalties) (A B : List Char) (r c : Nat) :
    flagsS true p A B (r + 1) (c + 1) ≠ ⟨false, false, false⟩ := by
  intro hcon
  rw [flagsS_interior] at hcon
  have hl := congrArg Flags.left hcon
  have hd := congrArg Flags.diag hcon
  have ht := congrArg Flags.top hcon
  simp only [decide_eq_false_iff_not] at hl hd ht
  have hs := scoreS_interior_g p A B r c
  omega

/-- In local mode every interior cell with positive score carries at least
one arrow flag. -/
theorem flags_exist_local (p : Penalties) (A B : List Char) (r c : Nat)
    (hpos : 0 < scoreS false p A B (r + 1) (c + 1)) :
    flagsS false p A B (r + 1) (c + 1) ≠ ⟨false, false, false⟩ := by
  intro hcon
  rw [flagsS_interior] at hcon
  have hl := congrArg Flags.left hcon
  have hd := congrArg Flags.diag hcon
  have ht := congrArg Flags.top hcon
  simp only [decide_eq_false_iff_not] at hl hd ht
  have hs := scoreS_interior_l p A B r c
  omega

/-- In local mode a cell with positive score is an interior cell. -/
theorem local_pos_interior (p : Penalties) (A B : List Char) (r c : Nat)
    (hpos : 0 < scoreS false p A B r c) :
    ∃ r1 c1, r = r1 + 1 ∧ c = c1 + 1 := by
  match r, c with
  | 0, c => rw [scoreS_zero] at hpos; simp [bRow] at hpos
  | r + 1, 0 => rw [scoreS_col0] at hpos; simp [bCol] at hpos
  | r + 1, c + 1 => exact ⟨r, c, rfl, rfl⟩

/-! ### The argmax scan of the local start cell -/

/-- `argmaxAux` returns an index in range. -/
theorem argmaxAux_le (g : Nat → Int) : ∀ j, argmaxAux g j ≤ j := by
  intro j
  induction j with
  | zero => simp [argmaxAux]
  | succ j ih => simp only [argmaxAux]; split <;> omega

/-- `argmaxAux` attains the maximum of the scanned prefix. -/
theorem argmaxAux_ge (g : Nat → Int) :
    ∀ j i, i ≤ j → g i ≤ g (argmaxAux g j) := by
  intro j
  induction j with
  | zero => intro i hi; interval_cases i; simp [argmaxAux]
  | succ j ih =>
    intro i hi
    simp only [argmaxAux]
    split
    · rcases Nat.lt_or_ge i (j + 1) with h | h
      · exact le_of_lt (lt_of_le_of_lt (ih i (by omega)) (by assumption))
      · have : i = j + 1 := by omega
        subst this; exact le_refl _
    · rcases Nat.lt_or_ge i (j + 1) with h | h
      · exact ih i (by omega)
      · have : i = j + 1 := by omega
        subst this; omega
  
/-- `argmaxAux` keeps the first index attaining the maximum: every earlier
index has a strictly smaller value. -/
theorem argmaxAux_first (g : Nat → Int) :
    ∀ j i, i < argmaxAux g j → g i < g (argmaxAux g j) := by
  intro j
  induction j with
  | zero => intro i hi; simp [argmaxAux] at hi
  | succ j ih =>
    intro i
    by_cases h : g (j + 1) > g (argmaxAux g j)
    · simp only [argmaxAux, if_pos h]
      intro hi
      have hle : i ≤ j := by omega
      exact lt_of_le_of_lt (argmaxAux_ge g j i hle) h
    · simp only [argmaxAux, if_neg h]
      exact ih i

/-- The global start cell is the bottom-right corner. -/
theorem startCell_global (f : Nat → Nat → Int) (m n : Nat) :
    startCell true f m n = (m, n) := rfl

/-- Specification of the local start cell: it lies in the matrix, it holds
the matrix-wide maximum score, and every cell strictly preceding it in
row-major order scores strictly less (so it is the first maximum found by
the row-major `argmax` scan). -/
theorem startCell_local_spec (f : Nat → Nat → Int) (m n : Nat) :
    (startCell false f m n).1 ≤ m ∧ (startCell false f m n).2 ≤ n ∧
    (∀ r c, r ≤ m → c ≤ n →
      f r c ≤ f (startCell false f m n).1 (startCell false f m n).2) ∧
    (∀ r c, r ≤ m → c ≤ n →
      (r < (startCell false f m n).1 ∨
        (r = (startCell false f m n).1 ∧ c < (startCell false f m n).2)) →
      f r c < f (startCell false f m n).1 (startCell false f m n).2) := by
  have hcols : 0 < n + 1 := Nat.succ_pos n
  set cols := n + 1 with hcolsdef
  set g : Nat → Int := fun i => f (i / cols) (i % cols) with hg
  set J := (m + 1) * cols - 1 with hJ
  set idx := argmaxAux g J with hidx
  have hprod : (m + 1) * cols = m * cols + cols := Nat.succ_mul m cols
  have hJle : idx ≤ J := argmaxAux_le g J
  have hidxlt : idx < (m + 1) * cols := by omega
  have hrow : idx / cols ≤ m := by
    have := (Nat.div_lt_iff_lt_mul hcols).mpr hidxlt
    omega
  have hcol : idx % cols ≤ n := by
    have := Nat.mod_lt idx hcols
    omega
  have hsc1 : (startCell false f m n).1 = idx / cols := rfl
  have hsc2 : (startCell false f m n).2 = idx % cols := rfl
  have hdecomp : cols * (idx / cols) + idx % cols = idx := Nat.div_add_mod idx cols
  -- encoding of an arbitrary in-range cell
  have henc : ∀ r c, r ≤ m → c ≤ n →
      (cols * r + c) / cols = r ∧ (cols * r + c) % cols = c ∧
      cols * r + c ≤ J := by
    intro r c hr hc
    refine ⟨?_, ?_, ?_⟩
    · rw [Nat.mul_add_div hcols]
      have : c / cols = 0 := Nat.div_eq_of_lt (by omega)
      omega
    · rw [Nat.mul_add_mod]
      exact Nat.mod_eq_of_lt (by omega)
    · have h1 : cols * r ≤ cols * m := Nat.mul_le_mul_left cols hr
      have h2 : cols * m = m * cols := Nat.mul_comm cols m
      omega
  have hgval : ∀ r c, r ≤ m → c ≤ n → g (cols * r + c) = f r c := by
    intro r c hr hc
    obtain ⟨h1, h2, _⟩ := henc r c hr hc
    simp only [hg, h1, h2]
  refine ⟨?_, ?_, ?_, ?_⟩
  · rw [hsc1]; exact hrow
  · rw [hsc2]; exact hcol
  · intro r c hr hc
    rw [hsc1, hsc2]
    obtain ⟨_, _, h3⟩ := henc r c hr hc
    have := argmaxAux_ge g J (cols * r + c) h3
    rw [hgval r c hr hc] at this
    exact this
  · intro r c hr hc hord
    rw [hsc1, hsc2] at hord ⊢
    have hlt : cols * r + c < idx := by
      rcases hord with h | ⟨h1, h2⟩
      · have hr1 : r + 1 ≤ idx / cols := h
        have : cols * (r + 1) ≤ cols * (idx / cols) :=
          Nat.mul_le_mul_left cols hr1
        have hmul : cols * (r + 1) = cols * r + cols := by ring
        omega
      · subst h1
        omega
    have := argmaxAux_first g J (cols * r + c) hlt
    rw [hgval r c hr hc] at this
    exact this

/-! ### The traceback walk -/

/-- Reading a valid nonnegative index does not wrap. -/
theorem pyIdx_of_lt (size i : Nat) (h : i < size) :
    pyIdx size (i : Int) = .ok i := by
  have h1 : 0 ≤ (i : Int) ∧ (i : Int) < (size : Int) := by omega
  simp only [pyIdx, if_pos h1]
  congr 1

/-- String read at a valid index. -/
theorem pyGetChar_at (s : List Char) (i : Nat) (h : i < s.length) :
    pyGetChar s (i : Int) = .ok (s.getD i ' ') := by
  simp only [pyGetChar, pyIdx_of_lt s.length i h]

/-- Flag read at a valid cell. -/
theorem readFlags_at (flagF : Nat → Nat → Flags) (m n r c : Nat)
    (hr : r ≤ m) (hc : c ≤ n) :
    readFlags flagF (m + 1) (n + 1) (r : Int) (c : Int) = .ok (flagF r c) := by
  simp only [readFlags, pyIdx_of_lt (m + 1) r (by omega),
    pyIdx_of_lt (n + 1) c (by omega)]

/-- Score read at a valid cell. -/
theorem readScore_at (scoreF : Nat → Nat → Int) (m n r c : Nat)
    (hr : r ≤ m) (hc : c ≤ n) :
    readScore scoreF (m + 1) (n + 1) (r : Int) (c : Int) =
      .ok (scoreF r c) := by
  simp only [readScore, pyIdx_of_lt (m + 1) r (by omega),
    pyIdx_of_lt (n + 1) c (by omega)]

/-- `_trace_cell` at a valid cell of the matrix: the two header reads
succeed and the move is selected by the flags in the order left, diagonal,
top. -/
theorem traceCell_at (flagF : Nat → Nat → Flags) (A B : List Char)
    (m n r c : Nat) (hA : A.length = n) (hB : B.length = m)
    (hr : r ≤ m) (hc : c ≤ n) (a b : List Char) :
    traceCell flagF (' ' :: A) (' ' :: B) (m + 1) (n + 1)
      (r : Int) (c : Int) a b =
      (let fl := flagF r c
       if fl.left then
         .ok ((r : Int), (c : Int) - 1, (' ' :: A).getD c ' ' :: a, '-' :: b)
       else if fl.diag then
         .ok ((r : Int) - 1, (c : Int) - 1, (' ' :: A).getD c ' ' :: a,
           (' ' :: B).getD r ' ' :: b)
       else if fl.top then
         .ok ((r : Int) - 1, (c : Int), '-' :: a, (' ' :: B).getD r ' ' :: b)
       else .error .typeError) := by
  have hca : c < (' ' :: A).length := by simp [hA]; omega
  have hcb : r < (' ' :: B).length := by simp [hB]; omega
  simp only [traceCell, pyGetChar_at (' ' :: A) c hca,
    pyGetChar_at (' ' :: B) r hcb, readFlags_at flagF m n r c hr hc]

/-- One unfolding of the traceback loop. -/
theorem traceLoop_succ (scoreF : Nat → Nat → Int) (flagF : Nat → Nat → Flags)
    (gl : Bool) (colIdx rowIdx : List Char) (rows cols fuel : Nat)
    (r c : Int) (a b : List Char) :
    traceLoop scoreF flagF gl colIdx rowIdx rows cols (fuel + 1) r c a b =
      (match traceCell flagF colIdx rowIdx rows cols r c a b with
       | .error e => .error e
       | .ok (r2, c2, a2, b2) =>
         match (if gl then Except.ok (decide (r2 = 0 ∧ c2 = 0))
                else Except.map (fun v => decide (v = 0))
                       (readScore scoreF rows cols r2 c2)) with
         | .error e => .error e
         | .ok stop =>
           if stop then .ok ((r2, c2), a2, b2)
           else traceLoop scoreF flagF gl colIdx rowIdx rows cols fuel
             r2 c2 a2 b2) := rfl

/-- Global traceback success. -/
theorem trace_global_ok (scoreF : Nat → Nat → Int) (flagF : Nat → Nat → Flags)
    (A B : List Char) (m n : Nat) (hA : A.length = n) (hB : B.length = m)
    (H1 : ∀ r c, flagF (r + 1) (c + 1) ≠ ⟨false, false, false⟩)
    (H2 : ∀ c, (flagF 0 (c + 1)).left = true)
    (H3 : ∀ r, flagF (r + 1) 0 = ⟨false, false, true⟩) :
    ∀ fuel r c, r ≤ m → c ≤ n → ¬(r = 0 ∧ c = 0) → r + c ≤ fuel →
    ∀ a b, ∃ a2 b2,
      traceLoop scoreF flagF true (' ' :: A) (' ' :: B) (m + 1) (n + 1) fuel
        (r : Int) (c : Int) a b = .ok (((0 : Int), (0 : Int)), a2, b2) := by
  intro fuel
  induction fuel with
  | zero => intro r c hr hc hne hf a b; exact absurd ⟨by omega, by omega⟩ hne
  | succ fuel ih =>
    intro r c hr hc hne hf a b
    rw [traceLoop_succ, traceCell_at flagF A B m n r c hA hB hr hc a b]
    rcases r with _ | r1
    · rcases c with _ | c1
      · exact absurd ⟨rfl, rfl⟩ hne
      · have hfl := H2 c1
        have hcast : ((c1 + 1 : Nat) : Int) - 1 = (c1 : Int) := by push_cast; ring
        by_cases hc0 : c1 = 0
        · subst hc0
          simp [hfl, hcast]
        · simp [hfl, hcast, hc0]
          exact ih 0 c1 (by omega) (by omega) (by simp [hc0]) (by omega) _ _
    · have hcastr : ((r1 + 1 : Nat) : Int) - 1 = (r1 : Int) := by push_cast; ring
      rcases c with _ | c1
      · have hfl := H3 r1
        by_cases hr0 : r1 = 0
        · subst hr0
          simp [hfl, hcastr]
        · simp [hfl, hcastr, hr0]
          exact ih r1 0 (by omega) (by omega) (by simp [hr0]) (by omega) _ _
      · have hcastc : ((c1 + 1 : Nat) : Int) - 1 = (c1 : Int) := by push_cast; ring
        rcases hEq : flagF (r1 + 1) (c1 + 1) with ⟨l, d, t⟩
        cases l
        · cases d
          · cases t
            · exact absurd hEq (H1 r1 c1)
            · -- top move to (r1, c1 + 1)
              simp [hEq, hcastr, show ¬((c1 : Int) + 1 = 0) by omega]
              have hih := ih r1 (c1 + 1) (by omega) (by omega) (by omega) (by omega)
              push_cast at hih ⊢
              exact hih _ _
          · -- diagonal move to (r1, c1)
            by_cases hz : r1 = 0 ∧ c1 = 0
            · obtain ⟨h1, h2⟩ := hz
              subst h1; subst h2
              simp [hEq, hcastr, hcastc]
            · simp [hEq, hcastr, hcastc]
              by_cases hz1 : r1 = 0
              · subst hz1
                simp [show ¬c1 = 0 by omega]
                exact ih 0 c1 (by omega) (by omega) (by omega) (by omega) _ _
              · simp [hz1]
                exact ih r1 c1 (by omega) (by omega) (by omega) (by omega) _ _
        · -- left move to (r1 + 1, c1)
          simp [hEq, hcastc, show ¬(r1 + 1 = 0) by omega]
          exact ih (r1 + 1) c1 (by omega) (by omega) (by omega) (by omega) _ _

/-- Local traceback success: starting from an in-range cell with positive
score the loop reaches a zero-score cell and returns normally, provided
every positive-score cell is interior and carries a flag (which the local
fill guarantees) and all scores are nonnegative. -/
theorem trace_local_ok (scoreF : Nat → Nat → Int) (flagF : Nat → Nat → Flags)
    (A B : List Char) (m n : Nat) (hA : A.length = n) (hB : B.length = m)
    (L1 : ∀ r c, r ≤ m → c ≤ n → 0 ≤ scoreF r c)
    (L2 : ∀ r c, r ≤ m → c ≤ n → 0 < scoreF r c →
      (∃ r1, r = r1 + 1) ∧ (∃ c1, c = c1 + 1) ∧
      flagF r c ≠ ⟨false, false, false⟩) :
    ∀ fuel r c, r ≤ m → c ≤ n → 0 < scoreF r c → r + c ≤ fuel →
    ∀ a b, ∃ pos a2 b2,
      traceLoop scoreF flagF false (' ' :: A) (' ' :: B) (m + 1) (n + 1) fuel
        (r : Int) (c : Int) a b = .ok (pos, a2, b2) := by
  intro fuel
  induction fuel with
  | zero =>
    intro r c hr hc hpos hf a b
    obtain ⟨⟨r1, hr1⟩, _, _⟩ := L2 r c hr hc hpos
    omega
  | succ fuel ih =>
    intro r c hr hc hpos hf a b
    obtain ⟨⟨r1, hr1⟩, ⟨c1, hc1⟩, hflag⟩ := L2 r c hr hc hpos
    subst hr1; subst hc1
    rw [traceLoop_succ, traceCell_at flagF A B m n (r1 + 1) (c1 + 1) hA hB hr hc a b]
    have hcastr : ((r1 + 1 : Nat) : Int) - 1 = (r1 : Int) := by push_cast; ring
    have hcastc : ((c1 + 1 : Nat) : Int) - 1 = (c1 : Int) := by push_cast; ring
    rcases hEq : flagF (r1 + 1) (c1 + 1) with ⟨l, d, t⟩
    cases l
    · cases d
      · cases t
        · exact absurd hEq hflag
        · -- top move to (r1, c1 + 1)
          have hrs := readScore_at scoreF m n r1 (c1 + 1) (by omega) (by omega)
          push_cast at hrs
          simp [hEq, hcastr, hrs, Except.map]
          by_cases hv : scoreF r1 (c1 + 1) = 0
          · simp [hv]
          · simp [hv]
            have hp : 0 < scoreF r1 (c1 + 1) := by
              have := L1 r1 (c1 + 1) (by omega) (by omega)
              omega
            have hih := ih r1 (c1 + 1) (by omega) (by omega) hp (by omega)
            push_cast at hih
            obtain ⟨pos, a2, b2, hres⟩ := hih ('-' :: a) (B[r1]?.getD ' ' :: b)
            exact ⟨pos.1, pos.2, a2, b2, hres⟩
      · -- diagonal move to (r1, c1)
        have hrs := readScore_at scoreF m n r1 c1 (by omega) (by omega)
        push_cast at hrs
        simp [hEq, hcastr, hcastc, hrs, Except.map]
        by_cases hv : scoreF r1 c1 = 0
        · simp [hv]
        · simp [hv]
          have hp : 0 < scoreF r1 c1 := by
            have := L1 r1 c1 (by omega) (by omega)
            omega
          have hih := ih r1 c1 (by omega) (by omega) hp (by omega)
          push_cast at hih
          obtain ⟨pos, a2, b2, hres⟩ := hih (A[c1]?.getD ' ' :: a) (B[r1]?.getD ' ' :: b)
          exact ⟨pos.1, pos.2, a2, b2, hres⟩
    · -- left move to (r1 + 1, c1)
      have hrs := readScore_at scoreF m n (r1 + 1) c1 (by omega) (by omega)
      push_cast at hrs
      simp [hEq, hcastc, hrs, Except.map]
      by_cases hv : scoreF (r1 + 1) c1 = 0
      · simp [hv]
      · simp [hv]
        have hp : 0 < scoreF (r1 + 1) c1 := by
          have := L1 (r1 + 1) c1 (by omega) (by omega)
          omega
        have hih := ih (r1 + 1) c1 (by omega) (by omega) hp (by omega)
        push_cast at hih
        obtain ⟨pos, a2, b2, hres⟩ := hih (A[c1]?.getD ' ' :: a) ('-' :: b)
        exact ⟨pos.1, pos.2, a2, b2, hres⟩

/-- The copied-or-left value is dominated by the cell score. -/
theorem simpleLeftV_le (gl : Bool) (p : Penalties) (A B : List Char)
    (r c : Nat) :
    simpleLeftV gl p A B (r + 1) c ≤ scoreS gl p A B (r + 1) c := by
  cases c with
  | zero => exact le_refl _
  | succ c => exact left_le_cell gl p A B r c

/-- The copied-or-top value is dominated by the cell score. -/
theorem simpleTopV_le (gl : Bool) (p : Penalties) (A B : List Char)
    (r c : Nat) :
    simpleTopV gl p A B r (c + 1) ≤ scoreS gl p A B r (c + 1) := by
  cases r with
  | zero => exact le_refl _
  | succ r => exact top_le_cell gl p A B r c

/-- When `gap_opening = indel` the Gotoh fill computes exactly the simple
fill: the score channels agree and the `I` / `D` arrays hold the simple
`left` / `top` candidates (or the copied boundary). -/
theorem gotoh_key (gl : Bool) (p : Penalties) (A B : List Char)
    (hg : p.gap_opening = p.indel) :
    ∀ r c, gotohMat gl p A B r c =
      ⟨scoreS gl p A B r c, simpleLeftV gl p A B r c,
        simpleTopV gl p A B r c⟩ := by
  intro r
  induction r with
  | zero => intro c; rfl
  | succ r ihr =>
    intro c
    induction c with
    | zero => rfl
    | succ c ihc =>
      rw [gotohMat_interior]
      simp only [ihr c, ihr (c + 1), ihc]
      have hIv : (if r + 1 = 1 then scoreS gl p A B (r + 1) c + p.gap_opening
          else max (scoreS gl p A B (r + 1) c + p.gap_opening)
            (simpleLeftV gl p A B (r + 1) c + p.indel)) =
          scoreS gl p A B (r + 1) c + p.indel := by
        rcases r with _ | r2
        · simp [hg]
        · rw [if_neg (by omega), hg]
          have := simpleLeftV_le gl p A B (r2 + 1) c
          omega
      have hDv : (if c + 1 = 1 then scoreS gl p A B r (c + 1) + p.gap_opening
          else max (scoreS gl p A B r (c + 1) + p.gap_opening)
            (simpleTopV gl p A B r (c + 1) + p.indel)) =
          scoreS gl p A B r (c + 1) + p.indel := by
        rcases c with _ | c2
        · simp [hg]
        · rw [if_neg (by omega), hg]
          have := simpleTopV_le gl p A B r (c2 + 1)
          omega
      rw [hIv, hDv]
      have hms : (if gl then
          max (scoreS gl p A B r c + lscore p A B (r + 1) (c + 1))
            (max (scoreS gl p A B (r + 1) c + p.indel)
              (scoreS gl p A B r (c + 1) + p.indel))
          else max (max (scoreS gl p A B r c + lscore p A B (r + 1) (c + 1))
            (max (scoreS gl p A B (r + 1) c + p.indel)
              (scoreS gl p A B r (c + 1) + p.indel))) 0) =
          scoreS gl p A B (r + 1) (c + 1) := by
        cases gl
        · rfl
        · rfl
      rw [hms]
      rfl

/-- Interior flags of `align_g.fill_cell`. -/
theorem flagsG_interior (gl : Bool) (p : Penalties) (A B : List Char)
    (r c : Nat) :
    flagsG gl p A B (r + 1) (c + 1) =
      ⟨decide ((gotohMat gl p A B (r + 1) (c + 1)).I =
          (gotohMat gl p A B (r + 1) (c + 1)).S),
       decide ((gotohMat gl p A B r c).S + lscore p A B (r + 1) (c + 1) =
          (gotohMat gl p A B (r + 1) (c + 1)).S),
       decide ((gotohMat gl p A B (r + 1) (c + 1)).D =
          (gotohMat gl p A B (r + 1) (c + 1)).S)⟩ := rfl

/-- With `gap_opening = indel` the Gotoh score channel is the simple score
channel. -/
theorem scoreG_eq_scoreS (gl : Bool) (p : Penalties) (A B : List Char)
    (hg : p.gap_opening = p.indel) :
    scoreG gl p A B = scoreS gl p A B := by
  funext r c
  show (gotohMat gl p A B r c).S = scoreS gl p A B r c
  rw [gotoh_key gl p A B hg r c]

/-- With `gap_opening = indel` the Gotoh flags are the simple flags. -/
theorem flagsG_eq_flagsS (gl : Bool) (p : Penalties) (A B : List Char)
    (hg : p.gap_opening = p.indel) :
    flagsG gl p A B = flagsS gl p A B := by
  funext r c
  match r, c with
  | 0, 0 => rfl
  | 0, c + 1 => rfl
  | r + 1, 0 => rfl
  | r + 1, c + 1 =>
    rw [flagsG_interior, flagsS_interior, gotoh_key gl p A B hg (r + 1) (c + 1),
      gotoh_key gl p A B hg r c]
    rfl

/-- With `gap_opening = indel` the whole of `align_g` coincides with
`_align` in either mode. -/
theorem alignGotoh_eq_alignSimple (A B : List Char) (p : Penalties)
    (gl : Bool) (hg : p.gap_opening = p.indel) :
    alignGotoh A B p gl = alignSimple A B p gl := by
  unfold alignGotoh alignSimple
  rw [scoreG_eq_scoreS gl p A B hg, flagsG_eq_flagsS gl p A B hg]

/-! ### Self-alignment score bounds under the default penalties -/

/-- The letter score on the diagonal of a self-alignment is the match
score. -/
theorem lscore_self (S : List Char) (r : Nat) :
    lscore defaultModel S S (r + 1) (r + 1) = 1 := by
  simp [lscore, defaultModel]

/-- The letter score is 1 or -1 under the default penalties. -/
theorem lscore_default (A B : List Char) (r c : Nat) :
    lscore defaultModel A B r c = 1 ∨ lscore defaultModel A B r c = -1 := by
  unfold lscore
  split
  · left; rfl
  · right; rfl

/-- Diagonal lower bound: aligning a sequence against itself, cell `(r, r)`
scores at least `r` in either mode. -/
theorem diag_self_ge (gl : Bool) (S : List Char) :
    ∀ r : Nat, (r : Int) ≤ scoreS gl defaultModel S S r r := by
  intro r
  induction r with
  | zero =>
    have h0 : scoreS gl defaultModel S S 0 0 = bRow gl 0 := rfl
    rw [h0]
    cases gl <;> simp [bRow]
  | succ r ih =>
    have hls := lscore_self S r
    have hd : defaultModel.indel = -1 := rfl
    cases gl
    · rw [scoreS_interior_l, hls, hd]
      push_cast
      omega
    · rw [scoreS_interior_g, hls, hd]
      push_cast
      omega

/-- Global upper bound for self-alignment matrices: cell `(r, c)` scores at
most `3 min(r,c) - r - c`. -/
theorem global_upper (S : List Char) :
    ∀ r c, scoreS true defaultModel S S r c ≤
      3 * ((min r c : Nat) : Int) - (r : Int) - (c : Int) := by
  intro r
  induction r with
  | zero =>
    intro c
    have h0 : scoreS true defaultModel S S 0 c = -(c : Int) := rfl
    rw [h0]
    omega
  | succ r ihr =>
    intro c
    induction c with
    | zero =>
      have h0 : scoreS true defaultModel S S (r + 1) 0 = -((r : Int) + 1) := by
        rw [scoreS_col0]
        simp [bCol]
      rw [h0]
      omega
    | succ c ihc =>
      rw [scoreS_interior_g]
      have h1 := ihr c
      have h2 := ihr (c + 1)
      have h3 := ihc
      have hls := lscore_default S S (r + 1) (c + 1)
      have hd : defaultModel.indel = -1 := rfl
      rw [hd]
      push_cast at h1 h2 h3 ⊢
      omega

/-- Local upper bound for self-alignment matrices: cell `(r, c)` scores at
most `min(r, c)`. -/
theorem local_upper (S : List Char) :
    ∀ r c, scoreS false defaultModel S S r c ≤ ((min r c : Nat) : Int) := by
  intro r
  induction r with
  | zero =>
    intro c
    have h0 : scoreS false defaultModel S S 0 c = 0 := rfl
    rw [h0]
    omega
  | succ r ihr =>
    intro c
    induction c with
    | zero =>
      have h0 : scoreS false defaultModel S S (r + 1) 0 = 0 := rfl
      rw [h0]
      omega
    | succ c ihc =>
      rw [scoreS_interior_l]
      have h1 := ihr c
      have h2 := ihr (c + 1)
      have h3 := ihc
      have hls := lscore_default S S (r + 1) (c + 1)
      have hd : defaultModel.indel = -1 := rfl
      rw [hd]
      push_cast at h1 h2 h3 ⊢
      omega

/-- `_align` in global mode returns normally with the bottom-right score,
whenever the two sequences are not both empty. -/
theorem alignSimple_global_ok (A B : List Char) (p : Penalties)
    (hne : ¬(B.length = 0 ∧ A.length = 0)) :
    ∃ a b, alignSimple A B p true =
      .ok (scoreS true p A B B.length A.length, a, b) := by
  have H1 : ∀ r c, flagsS true p A B (r + 1) (c + 1) ≠ ⟨false, false, false⟩ :=
    fun r c => flags_exist_global p A B r c
  have H2 : ∀ c, (flagsS true p A B 0 (c + 1)).left = true := fun c => rfl
  have H3 : ∀ r, flagsS true p A B (r + 1) 0 = ⟨false, false, true⟩ :=
    fun r => rfl
  obtain ⟨a2, b2, hres⟩ := trace_global_ok (scoreS true p A B)
    (flagsS true p A B) A B B.length A.length rfl rfl H1 H2 H3
    (traceFuel B.length A.length) B.length A.length (le_refl _) (le_refl _)
    hne (by unfold traceFuel; omega) [] []
  refine ⟨a2, b2, ?_⟩
  simp only [alignSimple, alignCore, startCell_global]
  rw [hres]

/-- `_align` in local mode returns normally with the argmax score, whenever
the matrix-wide maximum is positive. -/
theorem alignSimple_local_ok (A B : List Char) (p : Penalties)
    (hpos : 0 < scoreS false p A B
      (startCell false (scoreS false p A B) B.length A.length).1
      (startCell false (scoreS false p A B) B.length A.length).2) :
    ∃ a b, alignSimple A B p false =
      .ok (scoreS false p A B
        (startCell false (scoreS false p A B) B.length A.length).1
        (startCell false (scoreS false p A B) B.length A.length).2, a, b) := by
  obtain ⟨hr, hc, _, _⟩ :=
    startCell_local_spec (scoreS false p A B) B.length A.length
  have L1 : ∀ r c, r ≤ B.length → c ≤ A.length →
      0 ≤ scoreS false p A B r c := fun r c _ _ => scoreS_local_nonneg p A B r c
  have L2 : ∀ r c, r ≤ B.length → c ≤ A.length → 0 < scoreS false p A B r c →
      (∃ r1, r = r1 + 1) ∧ (∃ c1, c = c1 + 1) ∧
      flagsS false p A B r c ≠ ⟨false, false, false⟩ := by
    intro r c _ _ hp
    obtain ⟨r1, c1, hr1, hc1⟩ := local_pos_interior p A B r c hp
    subst hr1; subst hc1
    exact ⟨⟨r1, rfl⟩, ⟨c1, rfl⟩, flags_exist_local p A B r1 c1 hp⟩
  obtain ⟨pos, a2, b2, hres⟩ := trace_local_ok (scoreS false p A B)
    (flagsS false p A B) A B B.length A.length rfl rfl L1 L2
    (traceFuel B.length A.length)
    (startCell false (scoreS false p A B) B.length A.length).1
    (startCell false (scoreS false p A B) B.length A.length).2
    hr hc hpos (by unfold traceFuel; omega) [] []
  refine ⟨a2, b2, ?_⟩
  simp only [alignSimple, alignCore]
  rw [show startCell false (scoreS false p A B) B.length A.length =
    ((startCell false (scoreS false p A B) B.length A.length).1,
     (startCell false (scoreS false p A B) B.length A.length).2) from rfl]
  rw [hres]

/-- Global self-alignment corner value is the sequence length. -/
theorem self_global_score (S : List Char) :
    scoreS true defaultModel S S S.length S.length = (S.length : Int) := by
  have h1 := diag_self_ge true S S.length
  have h2 := global_upper S S.length S.length
  have h3 : min S.length S.length = S.length := Nat.min_self _
  rw [h3] at h2
  omega

/-- Local self-alignment argmax value is the sequence length. -/
theorem self_local_score (S : List Char) :
    scoreS false defaultModel S S
      (startCell false (scoreS false defaultModel S S) S.length S.length).1
      (startCell false (scoreS false defaultModel S S) S.length S.length).2 =
      (S.length : Int) := by
  obtain ⟨hr, hc, hmax, _⟩ :=
    startCell_local_spec (scoreS false defaultModel S S) S.length S.length
  have hup := local_upper S
    (startCell false (scoreS false defaultModel S S) S.length S.length).1
    (startCell false (scoreS false defaultModel S S) S.length S.length).2
  have hat := hmax S.length S.length (le_refl _) (le_refl _)
  have hdiag := diag_self_ge false S S.length
  have hminle : min
      (startCell false (scoreS false defaultModel S S) S.length S.length).1
      (startCell false (scoreS false defaultModel S S) S.length S.length).2 ≤
      S.length := by omega
  omega

/-! ### Endpoint of the traceback loop -/

/-- A normal return of the traceback loop ends exactly at the stop
condition: at `(0, 0)` in global mode, at a zero-score cell in local
mode. -/
theorem traceLoop_stop (scoreF : Nat → Nat → Int) (flagF : Nat → Nat → Flags)
    (gl : Bool) (colIdx rowIdx : List Char) (rows cols : Nat) :
    ∀ fuel (r c : Int) (a b : List Char) pos a2 b2,
      traceLoop scoreF flagF gl colIdx rowIdx rows cols fuel r c a b =
        .ok (pos, a2, b2) →
      (gl = true → pos = ((0 : Int), (0 : Int))) ∧
      (gl = false → readScore scoreF rows cols pos.1 pos.2 = .ok 0) := by
  intro fuel
  induction fuel with
  | zero =>
    intro r c a b pos a2 b2 h
    exact absurd h (by simp [traceLoop])
  | succ fuel ih =>
    intro r c a b pos a2 b2 h
    rw [traceLoop_succ] at h
    cases htc : traceCell flagF colIdx rowIdx rows cols r c a b with
    | error e => rw [htc] at h; exact absurd h (by simp)
    | ok x =>
      obtain ⟨r2, c2, a3, b3⟩ := x
      rw [htc] at h
      cases gl
      · cases hrs : readScore scoreF rows cols r2 c2 with
        | error e =>
          simp only [hrs, Except.map] at h
          exact absurd h (by simp)
        | ok v =>
          simp only [hrs, Except.map] at h
          by_cases hv : v = 0
          · simp [hv] at h
            obtain ⟨hpos, _, _⟩ := h
            refine ⟨fun hgl => by simp at hgl, fun _ => ?_⟩
            rw [← hpos]
            simp [hrs, hv]
          · simp [hv] at h
            exact ih r2 c2 a3 b3 pos a2 b2 h
      · by_cases hz : r2 = 0 ∧ c2 = 0
        · simp [hz] at h
          obtain ⟨hpos, _, _⟩ := h
          refine ⟨fun _ => ?_, fun hgl => by simp at hgl⟩
          rw [← hpos]
          rfl
        · simp [hz] at h
          exact ih r2 c2 a3 b3 pos a2 b2 h

/-- If the local-mode matrix maximum is 0 then the traceback starts at the
flagless corner `(0, 0)` and the first step fails (`_trace_cell` returns
`None` and the unpacking raises `TypeError`). -/
theorem alignCore_local_max0 (scoreF : Nat → Nat → Int)
    (flagF : Nat → Nat → Flags) (A B : List Char)
    (h00 : scoreF 0 0 = 0)
    (hfl : flagF 0 0 = ⟨false, false, false⟩)
    (h0 : scoreF (startCell false scoreF B.length A.length).1
      (startCell false scoreF B.length A.length).2 = 0) :
    alignCore scoreF flagF false A B = .error .typeError := by
  obtain ⟨hr, hc, hmax, hfirst⟩ := startCell_local_spec scoreF B.length A.length
  have hsc : startCell false scoreF B.length A.length = (0, 0) := by
    by_cases h1 : (startCell false scoreF B.length A.length).1 = 0 ∧
        (startCell false scoreF B.length A.length).2 = 0
    · exact Prod.ext h1.1 h1.2
    · exfalso
      have := hfirst 0 0 (Nat.zero_le _) (Nat.zero_le _) (by omega)
      rw [h00, h0] at this
      exact lt_irrefl 0 this
  have hfuel : traceFuel B.length A.length =
      (2 * (B.length + A.length) + 9) + 1 := by
    unfold traceFuel; omega
  simp only [alignCore, hsc, hfuel]
  rw [traceLoop_succ]
  have hstep := traceCell_at flagF A B B.length A.length 0 0 rfl rfl
    (Nat.zero_le _) (Nat.zero_le _) [] []
  simp only [Nat.cast_zero] at hstep
  simp [hstep, hfl]

/-! ### Claim theorems -/

/-- C1: the spec says the global boundary holds `score[0,c] = c * indel`
(and symmetrically for column 0), with row 0 carrying only the `fromLeft`
flag and column 0 only `fromTop`.  Evaluating the code at `indel = -2`
shows the boundary is hard-coded to `-c` (here `score[0,1] = -1`, not
`1 * (-2) = -2`), and the corner `(0,0)` carries both flags. -/
theorem C1_boundary_divergence :
    scoreS true ⟨1, -1, -2, -2⟩ ['A'] ['B'] 0 1 = -1 ∧
    ¬ ((-1 : Int) = (1 : Int) * (-2)) ∧
    flagsS true ⟨1, -1, -2, -2⟩ ['A'] ['B'] 0 0 = ⟨true, false, true⟩ := by
  decide

/-- C2: the spec says `I` uses only the opening term in the first interior
column (`c = 1`) and the full `max` elsewhere, symmetrically `D` at `r = 1`.
The code's guards are transposed (`r == 1` for `I`, `c == 1` for `D`):
at `A = "XY"`, `B = "Z"`, penalties `{0, -10, -1, gap_opening -3}`, the code
computes `I[1,2] = -7` (opening only) where the claimed recurrence gives
`max(score[1,1] + g, I[1,1] + indel) = -5`; and at `A = "X"`, `B = "YZ"` the
code computes `I[2,1] = -3` (a `max`) where the claimed opening-only term
`score[2,0] + g` is `-5`. -/
theorem C2_gotoh_guard_divergence :
    (gotohMat true ⟨0, -10, -1, -3⟩ ['X', 'Y'] ['Z'] 1 2).I = -7 ∧
    max ((gotohMat true ⟨0, -10, -1, -3⟩ ['X', 'Y'] ['Z'] 1 1).S + (-3))
      ((gotohMat true ⟨0, -10, -1, -3⟩ ['X', 'Y'] ['Z'] 1 1).I + (-1)) = -5 ∧
    (gotohMat true ⟨0, -10, -1, -3⟩ ['X'] ['Y', 'Z'] 2 1).I = -3 ∧
    (gotohMat true ⟨0, -10, -1, -3⟩ ['X'] ['Y', 'Z'] 2 0).S + (-3) = -5 := by
  decide

/-- C3: `_trace_cell` consults the flags in the fixed precedence order
left, then diagonal, then top; the chosen move prepends `A[c]` against a
gap, `A[c]` against `B[r]`, or a gap against `B[r]` respectively, and when
no flag is set the step fails (Python unpacks `None`). -/
theorem C3_trace_precedence (flagF : Nat → Nat → Flags)
    (colIdx rowIdx : List Char) (rows cols : Nat) (r c : Int)
    (a b : List Char) (aL bL : Char) (fl : Flags)
    (h1 : pyGetChar colIdx c = .ok aL) (h2 : pyGetChar rowIdx r = .ok bL)
    (h3 : readFlags flagF rows cols r c = .ok fl) :
    (fl.left = true →
      traceCell flagF colIdx rowIdx rows cols r c a b =
        .ok (r, c - 1, aL :: a, '-' :: b)) ∧
    (fl.left = false → fl.diag = true →
      traceCell flagF colIdx rowIdx rows cols r c a b =
        .ok (r - 1, c - 1, aL :: a, bL :: b)) ∧
    (fl.left = false → fl.diag = false → fl.top = true →
      traceCell flagF colIdx rowIdx rows cols r c a b =
        .ok (r - 1, c, '-' :: a, bL :: b)) ∧
    (fl.left = false → fl.diag = false → fl.top = false →
      traceCell flagF colIdx rowIdx rows cols r c a b =
        .error .typeError) := by
  unfold traceCell
  rw [h1, h2, h3]
  refine ⟨?_, ?_, ?_, ?_⟩
  · intro hL; simp [hL]
  · intro hL hD; simp [hL, hD]
  · intro hL hD hT; simp [hL, hD, hT]
  · intro hL hD hT; simp [hL, hD, hT]

/-- Witness for C3: a diagonal-flagged cell takes the diagonal move. -/
theorem C3_witness :
    traceCell (fun _ _ => (⟨false, true, false⟩ : Flags)) [' ', 'A'] [' ', 'B']
      2 2 1 1 [] [] = .ok (0, 0, ['A'], ['B']) := by
  have h := C3_trace_precedence (fun _ _ => (⟨false, true, false⟩ : Flags))
    [' ', 'A'] [' ', 'B'] 2 2 1 1 [] [] 'A' 'B' ⟨false, true, false⟩
    rfl rfl rfl
  have h2 := h.2.1 rfl rfl
  simpa using h2

/-- C5: a penalty dictionary missing `match`, `mismatch` or `indel` makes
`align` raise `ParameterError` before any computation (the caller's
dictionary is returned untouched); with the three keys present the
normalization succeeds and, when `gap_opening` is absent, the dictionary
gains `gap_opening = indel` and the model used for scoring is
`⟨match, mismatch, indel, indel⟩`. -/
theorem C5_penalty_validation (pd : PDict) :
    ((pd.matchS = none ∨ pd.mismatch = none ∨ pd.indel = none) →
      normalizePenalties pd = .error .parameterError ∧
      ∀ (A B : List Char) meth,
        align A B meth (some pd) = (some pd, .error .parameterError)) ∧
    (∀ ma mi ind, pd.matchS = some ma → pd.mismatch = some mi →
      pd.indel = some ind →
      ∃ pd1, normalizePenalties pd = .ok pd1 ∧
        (pd.gap_opening = none →
          pd1 = { pd with gap_opening := some ind } ∧
          toModel pd1 = ⟨ma, mi, ind, ind⟩)) := by
  obtain ⟨m?, mm?, i?, g?⟩ := pd
  constructor
  · intro hmiss
    have hnorm : normalizePenalties ⟨m?, mm?, i?, g?⟩ = .error .parameterError := by
      rcases hmiss with h | h | h
      · simp only at h
        subst h
        rfl
      · simp only at h
        subst h
        unfold normalizePenalties
        rcases m? <;> rfl
      · simp only at h
        subst h
        unfold normalizePenalties
        rcases m? <;> rcases mm? <;> rfl
    refine ⟨hnorm, fun A B meth => ?_⟩
    simp [align, hnorm]
  · intro ma mi ind h1 h2 h3
    simp only at h1 h2 h3
    subst h1; subst h2; subst h3
    rcases g? with _ | g0
    · exact ⟨_, rfl, fun _ => ⟨rfl, rfl⟩⟩
    · exact ⟨_, rfl, fun h => Option.noConfusion h⟩

/-- Witness for C5: with `match` absent `align` fails with
`ParameterError`, and the default-shaped dictionary normalizes with
`gap_opening` defaulted to `indel`. -/
theorem C5_witness :
    align ['A'] ['B'] (some "NW") (some ⟨none, some (-1), some (-1), none⟩) =
      (some ⟨none, some (-1), some (-1), none⟩, .error .parameterError) ∧
    ∃ pd1, normalizePenalties defaultPDict = .ok pd1 ∧
      (defaultPDict.gap_opening = none →
        pd1 = { defaultPDict with gap_opening := some (-1) } ∧
        toModel pd1 = ⟨1, -1, -1, -1⟩) :=
  ⟨((C5_penalty_validation ⟨none, some (-1), some (-1), none⟩).1
      (Or.inl rfl)).2 ['A'] ['B'] (some "NW"),
   (C5_penalty_validation defaultPDict).2 1 (-1) (-1) rfl rfl rfl⟩

/-- C6: with a complete penalty model whose `gap_opening` equals `indel`,
the Gotoh variants return exactly what the simple variants return (same
dictionary state, same score, same aligned strings): `GG` equals `NW` and
`GL` equals `SW` on every input pair. -/
theorem C6_affine_simple_convergence (A B : List Char) (ma mi ind : Int) :
    align A B (some "GG") (some ⟨some ma, some mi, some ind, some ind⟩) =
      align A B (some "NW") (some ⟨some ma, some mi, some ind, some ind⟩) ∧
    align A B (some "GL") (some ⟨some ma, some mi, some ind, some ind⟩) =
      align A B (some "SW") (some ⟨some ma, some mi, some ind, some ind⟩) := by
  constructor
  · show (some (⟨some ma, some mi, some ind, some ind⟩ : PDict),
      alignGotoh A B (⟨ma, mi, ind, ind⟩ : Penalties) true) =
      (some (⟨some ma, some mi, some ind, some ind⟩ : PDict),
      alignSimple A B (⟨ma, mi, ind, ind⟩ : Penalties) true)
    rw [alignGotoh_eq_alignSimple A B ⟨ma, mi, ind, ind⟩ true rfl]
  · show (some (⟨some ma, some mi, some ind, some ind⟩ : PDict),
      alignGotoh A B (⟨ma, mi, ind, ind⟩ : Penalties) false) =
      (some (⟨some ma, some mi, some ind, some ind⟩ : PDict),
      alignSimple A B (⟨ma, mi, ind, ind⟩ : Penalties) false)
    rw [alignGotoh_eq_alignSimple A B ⟨ma, mi, ind, ind⟩ false rfl]

/-- Witness for C6 at a concrete input. -/
theorem C6_witness :
    align ['A', 'C'] ['C'] (some "GG")
        (some ⟨some 1, some (-1), some (-1), some (-1)⟩) =
      align ['A', 'C'] ['C'] (some "NW")
        (some ⟨some 1, some (-1), some (-1), some (-1)⟩) ∧
    align ['A', 'C'] ['C'] (some "GL")
        (some ⟨some 1, some (-1), some (-1), some (-1)⟩) =
      align ['A', 'C'] ['C'] (some "SW")
        (some ⟨some 1, some (-1), some (-1), some (-1)⟩) :=
  C6_affine_simple_convergence ['A', 'C'] ['C'] 1 (-1) (-1)

/-- C8: selecting method `AE` (Altschul-Erickson) with a valid penalty
dictionary fails fast with the distinct `NotImplementedError` signal and
returns no alignment result. -/
theorem C8_ae_unimplemented (A B : List Char) (pd pd1 : PDict)
    (h : normalizePenalties pd = .ok pd1) :
    align A B (some "AE") (some pd) =
      (some pd1, .error .notImplementedError) := by
  simp [align, h, align_ae]

/-- Witness for C8. -/
theorem C8_witness :
    align ['A'] ['A'] (some "AE") (some defaultPDict) =
      (some ⟨some 1, some (-1), some (-1), some (-1)⟩,
       .error .notImplementedError) :=
  C8_ae_unimplemented ['A'] ['A'] defaultPDict
    ⟨some 1, some (-1), some (-1), some (-1)⟩ rfl

/-- C9: `align` mutates the caller's dictionary in place: whenever the
three required keys are present and `gap_opening` is absent, the
dictionary the caller holds after the call (whatever the method selector
and outcome) contains `gap_opening` equal to its `indel` value. -/
theorem C9_penalties_mutated (A B : List Char) (meth : Option String)
    (ma mi ind : Int) :
    (align A B meth (some ⟨some ma, some mi, some ind, none⟩)).1 =
      some ⟨some ma, some mi, some ind, some ind⟩ := by
  simp only [align, normalizePenalties, Option.getD_some, Option.map_some]
  split
  · repeat' split
    all_goals rfl
  · rfl

/-- Witness for C9. -/
theorem C9_witness :
    (align ['A'] ['B'] (some "XY")
        (some ⟨some 1, some (-1), some (-1), none⟩)).1 =
      some ⟨some 1, some (-1), some (-1), some (-1)⟩ :=
  C9_penalties_mutated ['A'] ['B'] (some "XY") 1 (-1) (-1)

/-- C7 counterexample: with method `AE` (allowed by "any method") the
self-alignment of `"A"` under the default penalties returns no score at
all, so its score is not `len(S) * match = 1`. -/
theorem C7_counterexample :
    scoreOf (align ['A'] ['A'] (some "AE") none).2 = none ∧
    scoreOf (align ['A'] ['A'] (some "AE") none).2 ≠ some 1 := by
  constructor
  · rfl
  · intro h
    rw [show scoreOf (align ['A'] ['A'] (some "AE") none).2 = none from rfl] at h
    exact Option.noConfusion h

/-- C7 (amended): for every nonempty sequence and every implemented method
selector (`None` and the four implemented algorithms), self-alignment under
the default penalties returns normally with score `len(S) * match`, i.e.
`len(S)`. -/
theorem C7_self_alignment :
    ∀ (S : List Char) (meth : Option String), S ≠ [] →
    meth ∈ ([none, some "NW", some "SW", some "GG", some "GL"] :
      List (Option String)) →
    ∃ a b, (align S S meth none).2 = .ok ((S.length : Int), a, b) := by
  intro S meth hS hmeth
  have hL : 1 ≤ S.length := by
    cases S
    · exact absurd rfl hS
    · simp
  have hNW : ∃ a b, alignSimple S S defaultModel true =
      .ok ((S.length : Int), a, b) := by
    obtain ⟨a, b, h⟩ := alignSimple_global_ok S S defaultModel (by omega)
    rw [self_global_score S] at h
    exact ⟨a, b, h⟩
  have hSW : ∃ a b, alignSimple S S defaultModel false =
      .ok ((S.length : Int), a, b) := by
    obtain ⟨a, b, h⟩ := alignSimple_local_ok S S defaultModel
      (by rw [self_local_score S]; omega)
    rw [self_local_score S] at h
    exact ⟨a, b, h⟩
  have hGG : alignGotoh S S defaultModel true =
      alignSimple S S defaultModel true :=
    alignGotoh_eq_alignSimple S S defaultModel true rfl
  have hGL : alignGotoh S S defaultModel false =
      alignSimple S S defaultModel false :=
    alignGotoh_eq_alignSimple S S defaultModel false rfl
  fin_cases hmeth
  · exact hNW
  · exact hNW
  · exact hSW
  · obtain ⟨a, b, h⟩ := hNW
    exact ⟨a, b, by rw [show (align S S (some "GG") none).2 =
      alignGotoh S S defaultModel true from rfl, hGG]; exact h⟩
  · obtain ⟨a, b, h⟩ := hSW
    exact ⟨a, b, by rw [show (align S S (some "GL") none).2 =
      alignGotoh S S defaultModel false from rfl, hGL]; exact h⟩

/-- Witness for C7 at `S = "A"`, method `NW`. -/
theorem C7_witness :
    ∃ a b, (align ['A'] ['A'] (some "NW") none).2 = .ok (1, a, b) :=
  C7_self_alignment ['A'] (some "NW") (by decide) (by decide)

/-- C4: start-cell selection, returned score, and stop conditions of the
traceback.  Global mode starts at the bottom-right corner; local mode
starts at the first row-major cell holding the matrix-wide maximum; a
normally returned score is the score of the start cell; a normal return of
the loop ends at `(0,0)` (global) or at a zero-score cell (local); and each
iteration steps first and only then tests the stop condition, returning the
just-reached cell when it satisfies the condition and recursing
otherwise. -/
theorem C4_traceback_structure (scoreF : Nat → Nat → Int)
    (flagF : Nat → Nat → Flags) (m n : Nat) :
    startCell true scoreF m n = (m, n) ∧
    (startCell false scoreF m n).1 ≤ m ∧
    (startCell false scoreF m n).2 ≤ n ∧
    (∀ r c, r ≤ m → c ≤ n →
      scoreF r c ≤ scoreF (startCell false scoreF m n).1
        (startCell false scoreF m n).2) ∧
    (∀ r c, r ≤ m → c ≤ n →
      (r < (startCell false scoreF m n).1 ∨
        (r = (startCell false scoreF m n).1 ∧
          c < (startCell false scoreF m n).2)) →
      scoreF r c < scoreF (startCell false scoreF m n).1
        (startCell false scoreF m n).2) ∧
    (∀ (gl : Bool) (A B : List Char) fs a b,
      alignCore scoreF flagF gl A B = .ok (fs, a, b) →
      fs = scoreF (startCell gl scoreF B.length A.length).1
        (startCell gl scoreF B.length A.length).2) ∧
    (∀ (gl : Bool) colIdx rowIdx rows cols fuel (r c : Int) a b pos a2 b2,
      traceLoop scoreF flagF gl colIdx rowIdx rows cols fuel r c a b =
        .ok (pos, a2, b2) →
      (gl = true → pos = ((0 : Int), (0 : Int))) ∧
      (gl = false → readScore scoreF rows cols pos.1 pos.2 = .ok 0)) ∧
    (∀ (gl : Bool) colIdx rowIdx rows cols fuel (r c r2 c2 : Int) a b a2 b2
        (stop : Bool),
      traceCell flagF colIdx rowIdx rows cols r c a b = .ok (r2, c2, a2, b2) →
      (if gl then Except.ok (decide (r2 = 0 ∧ c2 = 0))
       else Except.map (fun v => decide (v = 0))
         (readScore scoreF rows cols r2 c2)) = .ok stop →
      traceLoop scoreF flagF gl colIdx rowIdx rows cols (fuel + 1) r c a b =
        (if stop then .ok ((r2, c2), a2, b2)
         else traceLoop scoreF flagF gl colIdx rowIdx rows cols fuel
           r2 c2 a2 b2)) := by
  obtain ⟨hr, hc, hmax, hfirst⟩ := startCell_local_spec scoreF m n
  refine ⟨startCell_global scoreF m n, hr, hc, hmax, hfirst, ?_, ?_, ?_⟩
  · intro gl A B fs a b h
    simp only [alignCore] at h
    split at h
    · exact absurd h (by simp)
    · rename_i heq
      rw [show (.ok (fs, a, b) :
          Except AlignErr (Int × List Char × List Char)) =
          .ok (fs, a, b) from rfl] at h
      injection h with h2
      injection h2 with h3 _
      exact h3.symm
  · intro gl colIdx rowIdx rows cols fuel r c a b pos a2 b2 h
    exact traceLoop_stop scoreF flagF gl colIdx rowIdx rows cols fuel
      r c a b pos a2 b2 h
  · intro gl colIdx rowIdx rows cols fuel r c r2 c2 a b a2 b2 stop h1 h2
    rw [traceLoop_succ, h1]
    cases gl
    · simp only [Bool.false_eq_true, if_false] at h2 ⊢
      rw [h2]
    · rw [if_pos (rfl : true = true)] at h2
      injection h2 with h4
      subst h4
      rfl

/-- Witness for C4 at a concrete matrix. -/
theorem C4_witness :
    startCell true (scoreS true defaultModel ['A'] ['A']) 1 1 = (1, 1) ∧
    scoreS false defaultModel ['A'] ['A'] 0 0 ≤
      scoreS false defaultModel ['A'] ['A']
        (startCell false (scoreS false defaultModel ['A'] ['A']) 1 1).1
        (startCell false (scoreS false defaultModel ['A'] ['A']) 1 1).2 :=
  ⟨(C4_traceback_structure (scoreS true defaultModel ['A'] ['A'])
      (flagsS true defaultModel ['A'] ['A']) 1 1).1,
   (C4_traceback_structure (scoreS false defaultModel ['A'] ['A'])
      (flagsS false defaultModel ['A'] ['A']) 1 1).2.2.2.1 0 0
      (by omega) (by omega)⟩

/-- C10 counterexample: at `align("", "", NW)` the start cell `(0, 0)`
already satisfies the global stop condition, yet it carries the boundary
`fromLeft` and `fromTop` flags — the step function is not applied to a
flagless cell there, contrary to the claim's wording. -/
theorem C10_counterexample :
    startCell true (scoreS true defaultModel [] []) 0 0 = (0, 0) ∧
    flagsS true defaultModel [] [] 0 0 = ⟨true, false, true⟩ := by
  decide

/-- C10 (amended): the traceback loop always steps before testing its stop
condition.  Consequently `align("", "", NW, valid penalties)` walks off the
matrix through the flagged corner and raises `IndexError`, and any
local-mode call whose matrix-wide maximum is 0 starts at the flagless
corner and raises `TypeError`; neither returns normally. -/
theorem C10_no_normal_return :
    (∀ (ma mi ind : Int) (g? : Option Int),
      (align [] [] (some "NW")
        (some ⟨some ma, some mi, some ind, g?⟩)).2 = .error .indexError) ∧
    (∀ (A B : List Char) (p : Penalties),
      scoreS false p A B
        (startCell false (scoreS false p A B) B.length A.length).1
        (startCell false (scoreS false p A B) B.length A.length).2 = 0 →
      alignSimple A B p false = .error .typeError) ∧
    (∀ (A B : List Char) (p : Penalties),
      scoreG false p A B
        (startCell false (scoreG false p A B) B.length A.length).1
        (startCell false (scoreG false p A B) B.length A.length).2 = 0 →
      alignGotoh A B p false = .error .typeError) := by
  refine ⟨?_, ?_, ?_⟩
  · intro ma mi ind g?
    rfl
  · intro A B p h0
    exact alignCore_local_max0 (scoreS false p A B) (flagsS false p A B)
      A B rfl rfl h0
  · intro A B p h0
    exact alignCore_local_max0 (scoreG false p A B) (flagsG false p A B)
      A B rfl rfl h0

/-- Witness for C10. -/
theorem C10_witness :
    (align [] [] (some "NW") (some defaultPDict)).2 = .error .indexError ∧
    alignSimple ['A'] ['B'] defaultModel false = .error .typeError ∧
    alignGotoh ['A'] ['B'] defaultModel false = .error .typeError :=
  ⟨C10_no_normal_return.1 1 (-1) (-1) none,
   C10_no_normal_return.2.1 ['A'] ['B'] defaultModel (by decide),
   C10_no_normal_return.2.2 ['A'] ['B'] defaultModel (by decide)⟩
